import Mathlib

/-!
A shallow embedding of the conflict-resolution and coordination core of BDR
(BiDirectionalReplication, `src/bdr.h`): the conflict classifier/resolver and
its logging, the distributed sequence allocator, and the global DDL lock.
Enumerations and record layouts are taken from `src/bdr.h`; the header only
declares the operations (`bdr_conflict_handlers_resolve`, `bdr_sequencer_vote`,
`bdr_sequence_alloc`, `bdr_locks_shmem_init`, ...), so their behaviour is
modelled from the specification, as marked on each definition.
-/

namespace BDR

/-- `BdrConflictType` from src/bdr.h lines 74-82: the six conflict types
assigned by conflict detection. -/
inductive BdrConflictType
  | insertInsert
  | insertUpdate
  | updateUpdate
  | updateDelete
  | deleteDelete
  | unhandledTxAbort
deriving DecidableEq

/-- `BdrConflictResolution` from src/bdr.h lines 90-99: the seven ways a
conflict can be resolved. There is no "undetermined" member. -/
inductive BdrConflictResolution
  | conflictTriggerSkipChange
  | conflictTriggerReturnedTuple
  | lastUpdateWinsKeepLocal
  | lastUpdateWinsKeepRemote
  | defaultApplyChange
  | defaultSkipChange
  | unhandledTxAbort
deriving DecidableEq

/-- A node identity (system id, timeline id, database oid), as used in
`BDR_LOCALID_FORMAT` and the `remote_sysid`/`remote_tli`/`remote_dboid`
fields of `BdrApplyConflict` (src/bdr.h lines 328-330). -/
structure NodeIdentity where
  sysid : Nat
  tli : Nat
  dboid : Nat
deriving DecidableEq

/-- `BDRConflictHandler` from src/bdr.h lines 101-106: a per-relation conflict
handler registration (handler function oid, conflict type it handles, and a
timeframe window). -/
structure BDRConflictHandler where
  handler_oid : Nat
  handler_type : BdrConflictType
  timeframe : Nat
deriving DecidableEq

/-- The verdict a user conflict handler returns through
`bdr_conflict_handlers_resolve` (src/bdr.h lines 474-479): either skip the
change (`*skip = true`) or return a replacement tuple. -/
inductive HandlerVerdict
  | skip
  | returnedTuple (t : Nat)
deriving DecidableEq

/-- One side of a detected conflict, as the resolver sees it: the tuple image
(abstracted to a `Nat`), the commit timestamp of the transaction that wrote
it, and the system id of its origin node. -/
structure ConflictChange where
  tuple : Nat
  commitTime : Nat
  originSysid : Nat
deriving DecidableEq

/-- The configuration the resolver consumes: the registry mapping a handler
oid to the user resolver function (stored-procedure lookup in the original),
and the `bdr_conflict_default_apply` GUC (src/bdr.h line 247). -/
structure ResolveEnv where
  handlerFns : Nat → Nat → Nat → HandlerVerdict
  conflict_default_apply : Bool

/-- Modelled from the spec: ConflictHandler lookup is by (conflict type,
whether the remote change falls inside the handler's timeframe window
measured from commit time); the body of `bdr_conflict_handlers_resolve` is
not in src/. -/
def handlerMatches (h : BDRConflictHandler) (ty : BdrConflictType)
    (elapsed : Nat) : Bool :=
  decide (h.handler_type = ty) && decide (elapsed ≤ h.timeframe)

/-- Modelled from the spec: last-writer-wins applies only to
insert-insert/update-update/update-delete/delete-delete conflicts. -/
def lwwEligible : BdrConflictType → Bool
  | .insertInsert => true
  | .updateUpdate => true
  | .updateDelete => true
  | .deleteDelete => true
  | _ => false

/-- Modelled from the spec: the remote change wins last-writer-wins iff its
commit timestamp is strictly later, with ties broken in favour of the lower
origin system id. -/
def lwwRemoteWins (localC remoteC : ConflictChange) : Bool :=
  decide (localC.commitTime < remoteC.commitTime) ||
    (decide (localC.commitTime = remoteC.commitTime) &&
      decide (remoteC.originSysid < localC.originSysid))

/-- Modelled from the spec: the conflict resolver behind
`bdr_conflict_handlers_resolve` (declared at src/bdr.h lines 474-479, body
not in src/). Resolution policy in priority order: an unhandled transaction
abort is terminal; else the first registered handler matching
(type, timeframe) decides; else last-writer-wins for the four eligible
conflict types; else the configured default apply/skip policy. Returns the
verdict and the tuple that wins (the applied row image). -/
def resolve (env : ResolveEnv) (handlers : List BDRConflictHandler)
    (ty : BdrConflictType) (elapsed : Nat)
    (localC remoteC : ConflictChange) : BdrConflictResolution × Nat :=
  if ty = .unhandledTxAbort then
    (.unhandledTxAbort, localC.tuple)
  else
    match handlers.find? (fun h => handlerMatches h ty elapsed) with
    | some h =>
        match env.handlerFns h.handler_oid localC.tuple remoteC.tuple with
        | .skip => (.conflictTriggerSkipChange, localC.tuple)
        | .returnedTuple t => (.conflictTriggerReturnedTuple, t)
    | none =>
        if lwwEligible ty then
          if lwwRemoteWins localC remoteC then
            (.lastUpdateWinsKeepRemote, remoteC.tuple)
          else
            (.lastUpdateWinsKeepLocal, localC.tuple)
        else
          if env.conflict_default_apply then
            (.defaultApplyChange, remoteC.tuple)
          else
            (.defaultSkipChange, localC.tuple)

/-- The kind of remote DML operation being applied. -/
inductive ChangeOp
  | ins
  | upd
  | del
deriving DecidableEq

/-- A decoded remote change as handed to conflict detection: operation, new
tuple image (if any), origin identity, commit timestamp, the last-writer
state the remote update assumed for the row, and an apply-time error if the
change could not be applied (constraint violation etc.). -/
structure RemoteChange where
  op : ChangeOp
  newTuple : Option Nat
  origin : NodeIdentity
  commitTime : Nat
  assumed : Option (Nat × Nat)
  applyError : Option Nat
deriving DecidableEq

/-- The current local row for the replica-identity key: tuple image, xmin,
and the origin system id / commit time of its last writer (origin tracking). -/
structure LocalRow where
  tuple : Nat
  xmin : Nat
  originSysid : Nat
  commitTime : Nat
deriving DecidableEq

/-- Tombstone metadata of a prior local delete of the key. -/
structure Tombstone where
  commitTime : Nat
  originSysid : Nat
deriving DecidableEq

/-- What the local row lookup returns for the remote change's key: the
current row, if present, and the tombstone of a local delete, if any. -/
structure LocalRowState where
  row : Option LocalRow
  tombstone : Option Tombstone
deriving DecidableEq

/-- The classifier's outcome: no conflict, or a conflict of one of the
enumerated types together with the local and remote tuple images. -/
inductive ConflictOutcome
  | noConflict
  | conflict (ty : BdrConflictType) (localTuple remoteTuple : Option Nat)
deriving DecidableEq

/-- Modelled from the spec: self-conflict suppression via origin tracking —
if the local tuple's recorded origin/commit matches the remote change's
cause, no conflict is raised. -/
def selfConflict (lr : LocalRow) (remote : RemoteChange) : Bool :=
  decide (lr.originSysid = remote.origin.sysid) &&
    decide (lr.commitTime = remote.commitTime)

/-- Modelled from the spec: a remote update carries the last-writer
timestamp/origin it assumed for the row; the local row conflicts when its
recorded last writer differs from that assumption. -/
def lastWriterDiffers (lr : LocalRow) (remote : RemoteChange) : Bool :=
  match remote.assumed with
  | some a => !(decide (lr.commitTime = a.1) && decide (lr.originSysid = a.2))
  | none => true

/-- Modelled from the spec: whether the local tombstone matches the remote
delete's metadata, making the second delete a no-op. -/
def tombstoneMatches (tb : Tombstone) (remote : RemoteChange) : Bool :=
  decide (tb.originSysid = remote.origin.sysid) &&
    decide (tb.commitTime = remote.commitTime)

/-- Modelled from the spec: the conflict classifier,
`classify(change, local_row_lookup) -> ConflictOutcome` (only the apply-side
helpers are declared in src/). An unclassifiable apply error becomes
unhandled-abort; a remote insert over an existing key is insert-insert; a
remote update of a missing key races a local delete (insert-update when the
delete's commit is newer-or-equal, update-delete otherwise) or is applied as
a plain insert; a remote update over a differing last writer is
update-update; a remote delete of a missing key is delete-delete unless the
tombstone matches. -/
def classify (remote : RemoteChange) (st : LocalRowState) : ConflictOutcome :=
  match remote.applyError with
  | some _ => .conflict .unhandledTxAbort ((st.row).map (fun lr => lr.tuple))
      remote.newTuple
  | none =>
    match remote.op, st.row with
    | .ins, some lr =>
        if selfConflict lr remote then .noConflict
        else .conflict .insertInsert (some lr.tuple) remote.newTuple
    | .ins, none => .noConflict
    | .upd, some lr =>
        if selfConflict lr remote then .noConflict
        else if lastWriterDiffers lr remote then
          .conflict .updateUpdate (some lr.tuple) remote.newTuple
        else .noConflict
    | .upd, none =>
        match st.tombstone with
        | some tb =>
            if remote.commitTime ≤ tb.commitTime then
              .conflict .insertUpdate none remote.newTuple
            else
              .conflict .updateDelete none remote.newTuple
        | none => .noConflict
    | .del, some _ => .noConflict
    | .del, none =>
        match st.tombstone with
        | some tb =>
            if tombstoneMatches tb remote then .noConflict
            else .conflict .deleteDelete none none
        | none => .noConflict

/-- `BdrApplyConflict` from src/bdr.h lines 321-345: details of a conflict
detected by an apply process, destined for logging output and/or conflict
triggers (tuple images abstracted to `Nat`, `Datum` composites to
`Option Nat`). -/
structure BdrApplyConflict where
  local_conflict_txid : Nat
  local_conflict_lsn : Nat
  local_conflict_time : Nat
  object_schema : String
  object_name : String
  remote_sysid : Nat
  remote_tli : Nat
  remote_dboid : Nat
  remote_txid : Nat
  remote_commit_time : Nat
  remote_commit_lsn : Nat
  conflict_type : BdrConflictType
  conflict_resolution : BdrConflictResolution
  local_tuple_null : Bool
  local_tuple : Option Nat
  local_tuple_xmin : Nat
  local_tuple_origin_sysid : Nat
  remote_tuple_null : Bool
  remote_tuple : Option Nat
  apply_error : Option Nat
deriving DecidableEq

/-- Modelled from the spec: `bdr_make_apply_conflict` (declared at src/bdr.h
lines 350-357, body not in src/) builds the conflict record at detection
time; the resolution is an argument of the (total) enumeration type, so a
record can only be built with its resolution already determined. -/
def bdr_make_apply_conflict (conflict_type : BdrConflictType)
    (resolution : BdrConflictResolution) (remote_txid : Nat)
    (origin : NodeIdentity) (remote_commit_time : Nat)
    (local_tuple : Option Nat) (remote_tuple : Option Nat)
    (apply_error : Option Nat) : BdrApplyConflict :=
  { local_conflict_txid := 0
    local_conflict_lsn := 0
    local_conflict_time := 0
    object_schema := ""
    object_name := ""
    remote_sysid := origin.sysid
    remote_tli := origin.tli
    remote_dboid := origin.dboid
    remote_txid := remote_txid
    remote_commit_time := remote_commit_time
    remote_commit_lsn := 0
    conflict_type := conflict_type
    conflict_resolution := resolution
    local_tuple_null := local_tuple.isNone
    local_tuple := local_tuple
    local_tuple_xmin := 0
    local_tuple_origin_sysid := 0
    remote_tuple_null := remote_tuple.isNone
    remote_tuple := remote_tuple
    apply_error := apply_error }

/-- The conflict-logging GUCs `bdr_log_conflicts_to_table` and
`bdr_conflict_logging_include_tuples` (src/bdr.h lines 243-244). -/
structure ConflictLogConfig where
  log_conflicts_to_table : Bool
  conflict_logging_include_tuples : Bool

/-- A row of the durable conflict-history table (`bdr.bdr_conflict_history`,
written by `bdr_conflict_log_table`): the record, with tuple images present
only when configured. -/
structure ConflictHistoryRow where
  record : BdrApplyConflict
  logged_local_tuple : Option Nat
  logged_remote_tuple : Option Nat
deriving DecidableEq

/-- The two sinks of the conflict log: the structured server log
(`bdr_conflict_log_serverlog`) and the durable history table
(`bdr_conflict_log_table`). -/
structure ConflictLogState where
  serverlog : List BdrApplyConflict
  history_table : List ConflictHistoryRow
deriving DecidableEq

/-- Modelled from the spec: the history-table row keeps the before/after
tuple images only when `bdr_conflict_logging_include_tuples` is set. -/
def historyRow (cfg : ConflictLogConfig) (c : BdrApplyConflict) :
    ConflictHistoryRow :=
  { record := c
    logged_local_tuple :=
      if cfg.conflict_logging_include_tuples then c.local_tuple else none
    logged_remote_tuple :=
      if cfg.conflict_logging_include_tuples then c.remote_tuple else none }

/-- Modelled from the spec: the Conflict Log's dual-sink policy (the bodies
of `bdr_conflict_log_serverlog` and `bdr_conflict_log_table`, declared at
src/bdr.h lines 359-360, are not in src/): always emit one structured
server-log line; additionally append one row to the durable table when
`bdr_log_conflicts_to_table` is enabled. -/
def bdr_conflict_log (cfg : ConflictLogConfig) (c : BdrApplyConflict)
    (st : ConflictLogState) : ConflictLogState :=
  { serverlog := st.serverlog ++ [c]
    history_table :=
      if cfg.log_conflicts_to_table then st.history_table ++ [historyRow cfg c]
      else st.history_table }

/-- Modelled from the spec: one resolver invocation on a detected conflict —
resolve it, build the one ConflictRecord, and hand it to the Conflict Log. -/
def resolveAndLog (env : ResolveEnv) (cfg : ConflictLogConfig)
    (handlers : List BDRConflictHandler) (ty : BdrConflictType)
    (elapsed : Nat) (origin : NodeIdentity) (remote_txid : Nat)
    (localC remoteC : ConflictChange) (st : ConflictLogState) :
    (BdrConflictResolution × Nat) × ConflictLogState :=
  let r := resolve env handlers ty elapsed localC remoteC
  let rec_ := bdr_make_apply_conflict ty r.1 remote_txid origin
    remoteC.commitTime (some localC.tuple) (some remoteC.tuple) none
  (r, bdr_conflict_log cfg rec_ st)

/-- `InvalidXLogRecPtr`: the zero LSN, used by `BdrApplyWorker.replay_stop_lsn`
(src/bdr.h lines 156-162) to mean "no stop point requested". -/
def InvalidXLogRecPtr : Nat := 0

/-- A change in the replay stream: its commit LSN and its decoded payload. -/
structure ReplChange where
  lsn : Nat
  payload : Nat
deriving DecidableEq

/-- An entry of the apply-side conflict processing trace: which change was
processed and whether its record was completely written. -/
structure ApplyLogEntry where
  change : Nat
  complete : Bool
deriving DecidableEq

/-- A change is past the replay-stop high-water mark when a stop position is
set (not `InvalidXLogRecPtr`) and the change lies strictly after it. -/
def pastStop (replay_stop_lsn : Nat) (ch : ReplChange) : Bool :=
  decide (replay_stop_lsn ≠ InvalidXLogRecPtr) &&
    decide (replay_stop_lsn < ch.lsn)

/-- Modelled from the spec: the apply loop honouring
`BdrApplyWorker.replay_stop_lsn` (src/bdr.h lines 148-175, worker body not in
src/). The stop condition is checked only between changes: a change at or
before the stop position is processed to completion (its record written
whole) before the loop exits; a change past the stop position is never
started. -/
def bdr_apply_replay (replay_stop_lsn : Nat) :
    List ReplChange → List ApplyLogEntry → List ApplyLogEntry
  | [], log => log
  | ch :: rest, log =>
      if pastStop replay_stop_lsn ch then
        log
      else
        bdr_apply_replay replay_stop_lsn rest
          (log ++ [{ change := ch.payload, complete := true }])

/-- `BdrApplyWorker` from src/bdr.h lines 148-175: shared-memory data of an
apply worker connection. -/
structure BdrApplyWorker where
  connection_config_idx : Int
  replay_stop_lsn : Nat
  forward_changesets : Bool
  bgw_is_registered : Bool
  perdb_worker_off : Nat
deriving DecidableEq

/-- `BdrPerdbWorker` from src/bdr.h lines 181-191: shared-memory data of a
per-database worker. -/
structure BdrPerdbWorker where
  dbname : String
  nnodes : Nat
  seq_slot : Nat
deriving DecidableEq

/-- `BdrWorkerType` from src/bdr.h lines 196-211: the tag of a shared-memory
worker slot. -/
inductive BdrWorkerType
  | emptySlot
  | apply
  | perdb
  | walsender
deriving DecidableEq

/-- The numeric values the C enum assigns: `BDR_WORKER_EMPTY_SLOT = 0` is
explicit in src/bdr.h line 201, the rest follow in declaration order. -/
def workerTypeCode : BdrWorkerType → Nat
  | .emptySlot => 0
  | .apply => 1
  | .perdb => 2
  | .walsender => 3

/-- Reading a worker-type tag back from its in-memory numeric value. -/
def workerTypeOfCode : Nat → Option BdrWorkerType
  | 0 => some .emptySlot
  | 1 => some .apply
  | 2 => some .perdb
  | 3 => some .walsender
  | _ => none

/-- The `worker_data` union of `BdrWorker` (src/bdr.h lines 224-227), as a
tagged payload: unset (all-zero union bytes), apply worker data, or
per-database worker data. -/
inductive BdrWorkerData
  | unset
  | applyData (w : BdrApplyWorker)
  | perdbData (w : BdrPerdbWorker)
deriving DecidableEq

/-- `BdrWorker` from src/bdr.h lines 219-229: a shared-memory slot holding a
type tag and the union payload. -/
structure BdrWorker where
  worker_type : BdrWorkerType
  worker_data : BdrWorkerData
deriving DecidableEq

/-- The tagged-union validity invariant of a `BdrWorker` slot: the
`worker_type` tag says which union member is valid. -/
def workerTagOk (w : BdrWorker) : Prop :=
  (w.worker_type = .apply ↔ ∃ a, w.worker_data = .applyData a) ∧
  (w.worker_type = .perdb ↔ ∃ p, w.worker_data = .perdbData p)

/-- A slot is free and may be allocated iff its tag is
`BDR_WORKER_EMPTY_SLOT` (src/bdr.h line 221: "Also used to determine if this
shm slot is free"). -/
def slotIsFree (w : BdrWorker) : Bool :=
  decide (w.worker_type = .emptySlot)

/-- The slot image produced by `memset(..., 0, ...)` of the shared segment:
every byte zero, so the tag is the worker type whose code is 0 and the union
bytes carry no payload. -/
def zeroedWorker : BdrWorker :=
  { worker_type := (workerTypeOfCode 0).getD .walsender
    worker_data := .unset }

/-- Modelled from the spec: shared-segment initialisation zeroes an array of
`bdr_max_workers` slots (the comment at src/bdr.h lines 198-200; the
initialisation code is not in src/). -/
def bdr_worker_shmem_segment (bdr_max_workers : Nat) : List BdrWorker :=
  List.replicate bdr_max_workers zeroedWorker

/-- A typed allocation request for `bdr_worker_shmem_alloc`. -/
inductive WorkerPayload
  | applyW (a : BdrApplyWorker)
  | perdbW (p : BdrPerdbWorker)

/-- The tag an allocation request writes into the slot. -/
def payloadType : WorkerPayload → BdrWorkerType
  | .applyW _ => .apply
  | .perdbW _ => .perdb

/-- The union member an allocation request writes into the slot. -/
def payloadData : WorkerPayload → BdrWorkerData
  | .applyW a => .applyData a
  | .perdbW p => .perdbData p

/-- Modelled from the spec: `bdr_worker_shmem_alloc` (declared at src/bdr.h
lines 405-406, body not in src/) finds the first free slot and fills in the
worker type together with the matching union member. -/
def bdr_worker_shmem_alloc (p : WorkerPayload) (slots : List BdrWorker) :
    Option (Nat × List BdrWorker) :=
  match slots.findIdx? slotIsFree with
  | none => none
  | some i =>
      some (i, slots.set i { worker_type := payloadType p
                             worker_data := payloadData p })

/-- A sequence chunk (rows of `bdr_sequence_values`, src/bdr.h line 280): a
contiguous half-open range `[rangeStart, rangeEnd)` of one sequence's values
won by `owner` in election `epoch`; `nextVal` is the cursor of local
allocation inside the chunk. -/
structure SeqChunk where
  seqId : Nat
  rangeStart : Nat
  rangeEnd : Nat
  owner : Nat
  epoch : Nat
  nextVal : Nat
deriving DecidableEq

/-- The cluster-wide sequencer state: every chunk ever claimed by a closed
election (abandoned chunks stay, their unused values are never reused), and
the log of values handed to allocation requests, newest first. -/
structure SeqState where
  chunks : List SeqChunk
  alloc_log : List (Nat × Nat)
deriving DecidableEq

/-- Two chunks collide only when they are for the same sequence and their
value ranges overlap. -/
def chunksDisjoint (c c' : SeqChunk) : Bool :=
  decide (c.seqId ≠ c'.seqId) || decide (c.rangeEnd ≤ c'.rangeStart) ||
    decide (c'.rangeEnd ≤ c.rangeStart)

/-- Modelled from the spec: an election round (`bdr_sequencer_vote` /
`bdr_sequencer_tally`, declared at src/bdr.h lines 368-369, bodies not in
src/) can close by granting a candidate chunk only if its range is a fresh,
non-empty, unclaimed range: the tie-break rule resolves overlapping
proposals in favour of exactly one winner, so no granted chunk ever overlaps
a previously granted chunk of the same sequence. -/
def canClaim (c : SeqChunk) (s : SeqState) : Bool :=
  decide (c.rangeStart < c.rangeEnd) && decide (c.nextVal = c.rangeStart) &&
    s.chunks.all (fun c' => chunksDisjoint c c')

/-- Recording a won election: the new chunk joins the claimed set. -/
def electChunk (c : SeqChunk) (s : SeqState) : SeqState :=
  { s with chunks := c :: s.chunks }

/-- An allocation request can be served from chunk `i` iff that chunk still
has unconsumed values. -/
def canAllocAt (s : SeqState) (i : Nat) : Bool :=
  match s.chunks[i]? with
  | some c => decide (c.nextVal < c.rangeEnd)
  | none => false

/-- Modelled from the spec: `bdr_sequence_alloc` (declared at src/bdr.h line
376, body not in src/) serves an allocation request from the local chunk by
handing out its next unconsumed value and advancing the cursor; no
inter-node communication per allocation. -/
def bdr_sequence_alloc (s : SeqState) (i : Nat) : SeqState :=
  match s.chunks[i]? with
  | some c =>
      { chunks := s.chunks.set i { c with nextVal := c.nextVal + 1 }
        alloc_log := (c.seqId, c.nextVal) :: s.alloc_log }
  | none => s

/-- Modelled from the spec: a crashed owner's unused range is abandoned —
the remaining values of the chunk are never reused. -/
def abandonChunk (s : SeqState) (i : Nat) : SeqState :=
  match s.chunks[i]? with
  | some c => { s with chunks := s.chunks.set i { c with nextVal := c.rangeEnd } }
  | none => s

/-- No chunks claimed, no values allocated. -/
def seqInit : SeqState :=
  { chunks := [], alloc_log := [] }

/-- One transition of the sequencer protocol: a closed election granting a
fresh chunk, an allocation from a chunk with remaining values, or the
abandonment of a crashed owner's chunk. -/
inductive SeqStep : SeqState → SeqState → Prop
  | elect (s : SeqState) (c : SeqChunk) (h : canClaim c s = true) :
      SeqStep s (electChunk c s)
  | alloc (s : SeqState) (i : Nat) (h : canAllocAt s i = true) :
      SeqStep s (bdr_sequence_alloc s i)
  | abandon (s : SeqState) (i : Nat) :
      SeqStep s (abandonChunk s i)

/-- The sequencer states reachable by any interleaving of elections,
allocations and abandonments from the empty initial state. -/
inductive SeqReachable : SeqState → Prop
  | init : SeqReachable seqInit
  | step {s s' : SeqState} : SeqReachable s → SeqStep s s' → SeqReachable s'

/-- A global DDL lock request: the requesting node and its join-time-seeded
monotonically increasing counter. -/
structure LockRequest where
  node : Nat
  counter : Nat
deriving DecidableEq

/-- The global DDL lock state (`bdr_locks`/`bdr_locks_byowner`, src/bdr.h
lines 284-285): the nodes currently granted the lock, the FIFO queue of
pending acquirers, the next request counter, and the grant history in grant
order. -/
structure DDLLockState where
  holders : List LockRequest
  queue : List LockRequest
  next_counter : Nat
  grants : List LockRequest
deriving DecidableEq

/-- The lock state right after `bdr_locks_shmem_init` (declared at src/bdr.h
line 419, body not in src/): nobody holds the lock, nobody queues, the
counter starts at the join-time seed. -/
def lockInit (seed : Nat) : DDLLockState :=
  { holders := [], queue := [], next_counter := seed, grants := [] }

/-- Modelled from the spec: a node broadcasts an acquire request; requests
are queued in arrival order and stamped with the monotonically increasing
counter. -/
def requestLock (n : Nat) (s : DDLLockState) : DDLLockState :=
  { s with queue := s.queue ++ [{ node := n, counter := s.next_counter }]
           next_counter := s.next_counter + 1 }

/-- Modelled from the spec: a grant can happen only once every reachable
peer has acknowledged, i.e. while no node holds the lock, and only if
someone is queued. -/
def canGrant (s : DDLLockState) : Bool :=
  s.holders.isEmpty && !s.queue.isEmpty

/-- Modelled from the spec: when the lock is free, the queued requester with
the lowest counter (the queue head: counters are assigned in arrival order)
is granted. -/
def grantLock (s : DDLLockState) : DDLLockState :=
  match s.queue with
  | [] => s
  | r :: rest =>
      { s with holders := [r], queue := rest, grants := s.grants ++ [r] }

/-- Modelled from the spec: the holder releases the lock once its statement's
replicated effects are durable. -/
def releaseLock (s : DDLLockState) : DDLLockState :=
  { s with holders := [] }

/-- One transition of the global DDL lock protocol. -/
inductive LockStep : DDLLockState → DDLLockState → Prop
  | request (s : DDLLockState) (n : Nat) : LockStep s (requestLock n s)
  | grant (s : DDLLockState) (h : canGrant s = true) : LockStep s (grantLock s)
  | release (s : DDLLockState) : LockStep s (releaseLock s)

/-- The lock states reachable from the initialised state under any
interleaving of requests, grants and releases. -/
inductive LockReachable (seed : Nat) : DDLLockState → Prop
  | init : LockReachable seed (lockInit seed)
  | step {s s' : DDLLockState} :
      LockReachable seed s → LockStep s s' → LockReachable seed s'

/-- Well-formedness of a chunk's allocation cursor: consumed values stay
inside the chunk's range. -/
def chunkWF (c : SeqChunk) : Prop :=
  c.rangeStart ≤ c.nextVal ∧ c.nextVal ≤ c.rangeEnd

/-- The sequencer's global invariant: every chunk is well formed, chunks of
the same sequence occupy pairwise disjoint ranges, every allocated
(sequence id, value) pair was consumed from the chunk owning it, and no pair
repeats. -/
def SeqInv (s : SeqState) : Prop :=
  (∀ (i : Nat) (c : SeqChunk), s.chunks[i]? = some c → chunkWF c) ∧
  (∀ (i j : Nat) (ci cj : SeqChunk), i ≠ j → s.chunks[i]? = some ci →
    s.chunks[j]? = some cj → chunksDisjoint ci cj = true) ∧
  (∀ q v, (q, v) ∈ s.alloc_log → ∃ (i : Nat) (c : SeqChunk),
    s.chunks[i]? = some c ∧ c.seqId = q ∧ c.rangeStart ≤ v ∧ v < c.nextVal) ∧
  s.alloc_log.Nodup

/-- The DDL lock's global invariant: at most one holder, the counters of
past grants followed by the queued requests form a strictly increasing
sequence, and every issued counter is below the next counter. -/
def LockInv (s : DDLLockState) : Prop :=
  s.holders.length ≤ 1 ∧
  List.Pairwise (· < ·) ((s.grants ++ s.queue).map LockRequest.counter) ∧
  (∀ c ∈ (s.grants ++ s.queue).map LockRequest.counter, c < s.next_counter)

/-- A resolver environment whose handler functions always skip and whose
default policy is apply (the shipped default of `bdr_conflict_default_apply`). -/
def envApply : ResolveEnv :=
  { handlerFns := fun _ _ _ => .skip, conflict_default_apply := true }

/-- A resolver environment with the default policy configured to skip. -/
def envSkip : ResolveEnv :=
  { handlerFns := fun _ _ _ => .skip, conflict_default_apply := false }

/-- A change committed at t=100 on the node with system id 1. -/
def cA : ConflictChange := { tuple := 10, commitTime := 100, originSysid := 1 }

/-- A change committed at t=105 on the node with system id 2. -/
def cB : ConflictChange := { tuple := 20, commitTime := 105, originSysid := 2 }

/-- A registered insert-insert conflict handler with a 10-unit timeframe. -/
def hSkipDemo : BDRConflictHandler :=
  { handler_oid := 42, handler_type := .insertInsert, timeframe := 10 }

/-- A remote insert of tuple 7 from node 2 committed at t=5. -/
def remoteInsDemo : RemoteChange :=
  { op := .ins, newTuple := some 7, origin := ⟨2, 1, 1⟩, commitTime := 5,
    assumed := none, applyError := none }

/-- A local row state holding tuple 3 last written by node 1 at t=4. -/
def localStDemo : LocalRowState :=
  { row := some { tuple := 3, xmin := 9, originSysid := 1, commitTime := 4 },
    tombstone := none }

/-- A logging configuration with table logging and tuple images enabled. -/
def cfgFullDemo : ConflictLogConfig :=
  { log_conflicts_to_table := true, conflict_logging_include_tuples := true }

/-- A chunk of sequence 1, range [0, 3), owned by node 10 from epoch 0. -/
def chunkDemoA : SeqChunk :=
  { seqId := 1, rangeStart := 0, rangeEnd := 3, owner := 10, epoch := 0,
    nextVal := 0 }

/-- A sequencer run: one election win followed by two allocations. -/
def seqDemo : SeqState :=
  bdr_sequence_alloc (bdr_sequence_alloc (electChunk chunkDemoA seqInit) 0) 0

/-- A lock run: two requests, a grant, a release and a second grant. -/
def lockDemo : DDLLockState :=
  grantLock (releaseLock (grantLock (requestLock 7 (requestLock 5 (lockInit 3)))))

/-- A three-change replay stream with LSNs 1, 2 and 5. -/
def changesDemo : List ReplChange :=
  [{ lsn := 1, payload := 11 }, { lsn := 2, payload := 12 },
   { lsn := 5, payload := 15 }]

/-- Apply-worker data used to exercise slot allocation. -/
def applyWorkerDemo : BdrApplyWorker :=
  { connection_config_idx := 0, replay_stop_lsn := 0,
    forward_changesets := false, bgw_is_registered := false,
    perdb_worker_off := 0 }

/-- The slot array after allocating `applyWorkerDemo` into a fresh two-slot
segment. -/
def slotsDemo : List BdrWorker :=
  [{ worker_type := .apply, worker_data := .applyData applyWorkerDemo },
   zeroedWorker]

/- ------------------------------------------------------------------ -/
/- Helper lemmas                                                       -/
/- ------------------------------------------------------------------ -/

theorem lwwRemoteWins_iff (a b : ConflictChange) :
    lwwRemoteWins a b = true ↔
      (a.commitTime < b.commitTime ∨
        (a.commitTime = b.commitTime ∧ b.originSysid < a.originSysid)) := by
  simp [lwwRemoteWins]

theorem lwwRemoteWins_asymm (a b : ConflictChange)
    (hs : a.originSysid ≠ b.originSysid) :
    lwwRemoteWins b a = !lwwRemoteWins a b := by
  have hab := lwwRemoteWins_iff a b
  have hba := lwwRemoteWins_iff b a
  cases h1 : lwwRemoteWins a b <;> cases h2 : lwwRemoteWins b a <;>
    simp_all <;> omega

theorem resolve_no_handlers_lww (env : ResolveEnv) (ty : BdrConflictType)
    (elapsed : Nat) (a b : ConflictChange) (hty : lwwEligible ty = true) :
    resolve env [] ty elapsed a b =
      if lwwRemoteWins a b then (.lastUpdateWinsKeepRemote, b.tuple)
      else (.lastUpdateWinsKeepLocal, a.tuple) := by
  have h1 : ty ≠ .unhandledTxAbort := by
    rintro rfl; simp [lwwEligible] at hty
  simp [resolve, h1, hty]

theorem resolve_lww_remote (env : ResolveEnv) (ty : BdrConflictType)
    (elapsed : Nat) (a b : ConflictChange) (hty : lwwEligible ty = true)
    (hw : lwwRemoteWins a b = true) :
    resolve env [] ty elapsed a b = (.lastUpdateWinsKeepRemote, b.tuple) := by
  rw [resolve_no_handlers_lww env ty elapsed a b hty, hw]; rfl

theorem resolve_lww_local (env : ResolveEnv) (ty : BdrConflictType)
    (elapsed : Nat) (a b : ConflictChange) (hty : lwwEligible ty = true)
    (hw : lwwRemoteWins a b = false) :
    resolve env [] ty elapsed a b = (.lastUpdateWinsKeepLocal, a.tuple) := by
  rw [resolve_no_handlers_lww env ty elapsed a b hty, hw]; rfl

/- ------------------------------------------------------------------ -/
/- Claim theorems                                                      -/
/- ------------------------------------------------------------------ -/

/-- C1 (counterexample): the claim's priority list is not exhaustive — for an
unhandled-abort conflict no handler matches and last-writer-wins does not
apply, yet the default policy (configured to apply) is *not* used: the
resolver yields the terminal unhandled-abort resolution instead of
default-apply. -/
theorem resolver_policy_counterexample :
    List.find? (fun h => handlerMatches h .unhandledTxAbort 0) [] = none ∧
    lwwEligible .unhandledTxAbort = false ∧
    envApply.conflict_default_apply = true ∧
    resolve envApply [] .unhandledTxAbort 0 cA cB ≠
      (.defaultApplyChange, cB.tuple) ∧
    resolve envApply [] .unhandledTxAbort 0 cA cB ≠
      (.defaultSkipChange, cA.tuple) ∧
    resolve envApply [] .unhandledTxAbort 0 cA cB =
      (.unhandledTxAbort, cA.tuple) := by
  exact ⟨rfl, rfl, rfl, by decide, by decide, rfl⟩

/-- C1 (amended): the resolver applies its policy in fixed priority order
with first match winning — except that an unhandled-abort conflict is
terminal and bypasses the policy chain: (0) unhandled-abort yields the
unhandled-abort resolution; (1) otherwise the first registered handler
matching (type, timeframe) decides, yielding trigger-skip or
trigger-returned-tuple; (2) otherwise last-writer-wins for
insert-insert/update-update/update-delete/delete-delete, yielding
last-writer-wins-remote or -local; (3) otherwise the default policy yields
default-apply unless configured otherwise (default-skip). -/
theorem resolver_policy_priority (env : ResolveEnv)
    (handlers : List BDRConflictHandler) (ty : BdrConflictType)
    (elapsed : Nat) (localC remoteC : ConflictChange) :
    (ty = .unhandledTxAbort →
      resolve env handlers ty elapsed localC remoteC =
        (.unhandledTxAbort, localC.tuple)) ∧
    (∀ hd, ty ≠ .unhandledTxAbort →
      handlers.find? (fun h => handlerMatches h ty elapsed) = some hd →
      env.handlerFns hd.handler_oid localC.tuple remoteC.tuple = .skip →
      resolve env handlers ty elapsed localC remoteC =
        (.conflictTriggerSkipChange, localC.tuple)) ∧
    (∀ hd t, ty ≠ .unhandledTxAbort →
      handlers.find? (fun h => handlerMatches h ty elapsed) = some hd →
      env.handlerFns hd.handler_oid localC.tuple remoteC.tuple =
        .returnedTuple t →
      resolve env handlers ty elapsed localC remoteC =
        (.conflictTriggerReturnedTuple, t)) ∧
    (ty ≠ .unhandledTxAbort →
      handlers.find? (fun h => handlerMatches h ty elapsed) = none →
      lwwEligible ty = true →
      resolve env handlers ty elapsed localC remoteC =
        (if lwwRemoteWins localC remoteC then
          (.lastUpdateWinsKeepRemote, remoteC.tuple)
         else (.lastUpdateWinsKeepLocal, localC.tuple))) ∧
    (ty ≠ .unhandledTxAbort →
      handlers.find? (fun h => handlerMatches h ty elapsed) = none →
      lwwEligible ty = false →
      resolve env handlers ty elapsed localC remoteC =
        (if env.conflict_default_apply then
          (.defaultApplyChange, remoteC.tuple)
         else (.defaultSkipChange, localC.tuple))) := by
  refine ⟨?_, ?_, ?_, ?_, ?_⟩
  · rintro rfl; simp [resolve]
  · intro hd hne hfind hfn; simp [resolve, hne, hfind, hfn]
  · intro hd t hne hfind hfn; simp [resolve, hne, hfind, hfn]
  · intro hne hfind hlww; simp [resolve, hne, hfind, hlww]
  · intro hne hfind hlww; simp [resolve, hne, hfind, hlww]

/-- C1 (witness): with one matching skip handler registered, an
insert-insert conflict resolves to trigger-skip, by the priority theorem. -/
theorem resolver_policy_priority_witness :
    resolve envApply [hSkipDemo] .insertInsert 0 cA cB =
      (.conflictTriggerSkipChange, cA.tuple) :=
  (resolver_policy_priority envApply [hSkipDemo] .insertInsert 0 cA cB).2.1
    hSkipDemo (by decide) (by decide) rfl

/-- C2: with no matching handler, for a last-writer-wins-eligible conflict
between changes of different origins, the strictly later commit timestamp
wins regardless of which side is local; on a timestamp tie the lower origin
system id wins; and the outcome is a deterministic total choice of one of
the two changes, identical under both arrival orders. -/
theorem lww_latest_wins (env : ResolveEnv) (ty : BdrConflictType)
    (elapsed : Nat) (c1 c2 : ConflictChange)
    (hty : lwwEligible ty = true)
    (hor : c1.originSysid ≠ c2.originSysid) :
    (c1.commitTime < c2.commitTime →
      (resolve env [] ty elapsed c1 c2).2 = c2.tuple ∧
      (resolve env [] ty elapsed c2 c1).2 = c2.tuple) ∧
    (c1.commitTime = c2.commitTime → c1.originSysid < c2.originSysid →
      (resolve env [] ty elapsed c1 c2).2 = c1.tuple ∧
      (resolve env [] ty elapsed c2 c1).2 = c1.tuple) ∧
    (resolve env [] ty elapsed c1 c2).2 = (resolve env [] ty elapsed c2 c1).2 ∧
    ((resolve env [] ty elapsed c1 c2).2 = c1.tuple ∨
      (resolve env [] ty elapsed c1 c2).2 = c2.tuple) := by
  rcases Bool.eq_false_or_eq_true (lwwRemoteWins c1 c2) with h | h
  · have h21 : lwwRemoteWins c2 c1 = false := by
      rw [lwwRemoteWins_asymm c1 c2 hor, h]; rfl
    have hw : c1.commitTime < c2.commitTime ∨
        (c1.commitTime = c2.commitTime ∧ c2.originSysid < c1.originSysid) :=
      (lwwRemoteWins_iff c1 c2).mp h
    rw [resolve_lww_remote env ty elapsed c1 c2 hty h,
      resolve_lww_local env ty elapsed c2 c1 hty h21]
    refine ⟨fun _ => ⟨rfl, rfl⟩, ?_, rfl, Or.inr rfl⟩
    intro heq hs
    exfalso
    rcases hw with hlt | ⟨he, hs2⟩
    · omega
    · omega
  · have h21 : lwwRemoteWins c2 c1 = true := by
      rw [lwwRemoteWins_asymm c1 c2 hor, h]; rfl
    have hw : ¬(c1.commitTime < c2.commitTime ∨
        (c1.commitTime = c2.commitTime ∧ c2.originSysid < c1.originSysid)) := by
      rw [← lwwRemoteWins_iff c1 c2]; simp [h]
    rw [resolve_lww_local env ty elapsed c1 c2 hty h,
      resolve_lww_remote env ty elapsed c2 c1 hty h21]
    exact ⟨fun hlt => absurd (Or.inl hlt) hw, fun _ _ => ⟨rfl, rfl⟩, rfl,
      Or.inl rfl⟩

/-- C2 (witness): cA (t=100, sysid 1) against cB (t=105, sysid 2): the later
change cB wins in both arrival orders, by the last-writer-wins theorem. -/
theorem lww_latest_wins_witness :
    (resolve envApply [] .updateUpdate 0 cA cB).2 = cB.tuple ∧
    (resolve envApply [] .updateUpdate 0 cB cA).2 = cB.tuple :=
  (lww_latest_wins envApply .updateUpdate 0 cA cB (by decide) (by decide)).1
    (by decide)

/-- C3 (counterexample): resolving the same conflicting pair in opposite
arrival orders yields the same winning tuple but *different* resolution
verdicts (last-writer-wins-remote vs last-writer-wins-local), and for a
default-resolved conflict type (insert-update) even the applied tuple
depends on the arrival order. -/
theorem resolution_commutativity_counterexample :
    (resolve envApply [] .updateUpdate 0 cA cB).2 =
      (resolve envApply [] .updateUpdate 0 cB cA).2 ∧
    (resolve envApply [] .updateUpdate 0 cA cB).1 ≠
      (resolve envApply [] .updateUpdate 0 cB cA).1 ∧
    (resolve envApply [] .insertUpdate 0 cA cB).2 ≠
      (resolve envApply [] .insertUpdate 0 cB cA).2 := by
  exact ⟨by decide, by decide, by decide⟩

/-- C3 (amended): resolution is a pure function of the conflict contents —
for a last-writer-wins-eligible conflict with no matching handler the
verdict ignores the rest of the environment (no clock or random input) —
and resolving (A then B) on one node and (B then A) on another yields the
same winning tuple; the two verdicts designate that same winner but are
mirror images of each other (one node records last-writer-wins-remote
exactly when the other records last-writer-wins-local), not literally equal. -/
theorem resolution_order_independent (env env' : ResolveEnv)
    (ty : BdrConflictType) (elapsed : Nat) (a b : ConflictChange)
    (hty : lwwEligible ty = true)
    (hor : a.originSysid ≠ b.originSysid) :
    resolve env' [] ty elapsed a b = resolve env [] ty elapsed a b ∧
    (resolve env [] ty elapsed a b).2 = (resolve env [] ty elapsed b a).2 ∧
    ((resolve env [] ty elapsed a b).1 = .lastUpdateWinsKeepRemote ↔
      (resolve env [] ty elapsed b a).1 = .lastUpdateWinsKeepLocal) := by
  rcases Bool.eq_false_or_eq_true (lwwRemoteWins a b) with h | h
  · have h21 : lwwRemoteWins b a = false := by
      rw [lwwRemoteWins_asymm a b hor, h]; rfl
    rw [resolve_lww_remote env ty elapsed a b hty h,
      resolve_lww_remote env' ty elapsed a b hty h,
      resolve_lww_local env ty elapsed b a hty h21]
    exact ⟨rfl, rfl, by simp⟩
  · have h21 : lwwRemoteWins b a = true := by
      rw [lwwRemoteWins_asymm a b hor, h]; rfl
    rw [resolve_lww_local env ty elapsed a b hty h,
      resolve_lww_local env' ty elapsed a b hty h,
      resolve_lww_remote env ty elapsed b a hty h21]
    exact ⟨rfl, rfl, by simp⟩

/-- C3 (witness): two environments differing in handler registry and default
policy resolve the conflict identically, by the order-independence theorem. -/
theorem resolution_order_independent_witness :
    resolve envSkip [] .updateUpdate 0 cA cB =
      resolve envApply [] .updateUpdate 0 cA cB :=
  (resolution_order_independent envApply envSkip .updateUpdate 0 cA cB
    (by decide) (by decide)).1

/-- C4: every detected conflict carries one of exactly six conflict types —
insert-insert, insert-update, update-update, update-delete, delete-delete,
unhandled-abort — the six are pairwise distinct, and no further conflict
type exists in the enumeration. -/
theorem classify_six_types (remote : RemoteChange) (st : LocalRowState)
    (ty : BdrConflictType) (lt rt : Option Nat)
    (h : classify remote st = .conflict ty lt rt) :
    (ty = .insertInsert ∨ ty = .insertUpdate ∨ ty = .updateUpdate ∨
      ty = .updateDelete ∨ ty = .deleteDelete ∨ ty = .unhandledTxAbort) ∧
    (∀ t : BdrConflictType,
      t = .insertInsert ∨ t = .insertUpdate ∨ t = .updateUpdate ∨
        t = .updateDelete ∨ t = .deleteDelete ∨ t = .unhandledTxAbort) ∧
    [BdrConflictType.insertInsert, .insertUpdate, .updateUpdate,
      .updateDelete, .deleteDelete, .unhandledTxAbort].Nodup := by
  refine ⟨?_, ?_, by decide⟩
  · cases ty <;> simp
  · intro t; cases t <;> simp

/-- C4 (witness): a remote insert over an existing key classifies as an
insert-insert conflict, whose type is among the six, by the classifier
theorem. -/
theorem classify_six_types_witness :
    BdrConflictType.insertInsert = .insertInsert ∨
      BdrConflictType.insertInsert = .insertUpdate ∨
      BdrConflictType.insertInsert = .updateUpdate ∨
      BdrConflictType.insertInsert = .updateDelete ∨
      BdrConflictType.insertInsert = .deleteDelete ∨
      BdrConflictType.insertInsert = .unhandledTxAbort :=
  (classify_six_types remoteInsDemo localStDemo .insertInsert (some 3)
    (some 7) (by decide)).1

/-- Every zero-initialised slot satisfies the tagged-union invariant. -/
theorem workerTagOk_zeroed : workerTagOk zeroedWorker := by
  simp [workerTagOk, zeroedWorker, workerTypeOfCode]

/-- A slot written by an allocation request satisfies the tagged-union
invariant: the tag and the union member are set together. -/
theorem workerTagOk_payload (p : WorkerPayload) :
    workerTagOk { worker_type := payloadType p, worker_data := payloadData p } := by
  cases p <;> simp [workerTagOk, payloadType, payloadData]

/-- The apply loop appends complete records for exactly the prefix of changes
not past the stop position. -/
theorem bdr_apply_replay_append (stop : Nat) (changes : List ReplChange)
    (log : List ApplyLogEntry) :
    bdr_apply_replay stop changes log =
      log ++ (changes.takeWhile (fun ch => !pastStop stop ch)).map
        (fun ch => { change := ch.payload, complete := true }) := by
  induction changes generalizing log with
  | nil => simp [bdr_apply_replay]
  | cons ch rest ih =>
      rcases Bool.eq_false_or_eq_true (pastStop stop ch) with h | h
      · simp [bdr_apply_replay, h, List.takeWhile_cons]
      · simp [bdr_apply_replay, h, List.takeWhile_cons, ih]

/-- C5: the resolution of a ConflictRecord is always one of the seven
enumerated values — the enumeration has no "undetermined" member, and a
record can only be constructed with its resolution already set — and the
Conflict Log is append-only: persisting a record extends both sinks without
mutating any previously written entry. -/
theorem conflict_record_resolution_terminal (ct : BdrConflictType)
    (res : BdrConflictResolution) (txid : Nat) (origin : NodeIdentity)
    (rct : Nat) (lt rt e : Option Nat) (cfg : ConflictLogConfig)
    (c : BdrApplyConflict) (st : ConflictLogState) :
    (∀ r : BdrConflictResolution,
      r = .conflictTriggerSkipChange ∨ r = .conflictTriggerReturnedTuple ∨
        r = .lastUpdateWinsKeepLocal ∨ r = .lastUpdateWinsKeepRemote ∨
        r = .defaultApplyChange ∨ r = .defaultSkipChange ∨
        r = .unhandledTxAbort) ∧
    (bdr_make_apply_conflict ct res txid origin rct lt rt e).conflict_resolution
      = res ∧
    (∃ t1, (bdr_conflict_log cfg c st).serverlog = st.serverlog ++ t1) ∧
    (∃ t2, (bdr_conflict_log cfg c st).history_table = st.history_table ++ t2) := by
  refine ⟨?_, rfl, ⟨[c], rfl⟩, ?_⟩
  · intro r; cases r <;> simp
  · rcases Bool.eq_false_or_eq_true cfg.log_conflicts_to_table with h | h
    · exact ⟨[historyRow cfg c], by simp [bdr_conflict_log, h]⟩
    · exact ⟨[], by simp [bdr_conflict_log, h]⟩

/-- C6: every resolver invocation writes exactly one ConflictRecord: the
structured server log always grows by exactly one line, whatever the verdict
(including default-apply and unhandled-abort); the durable table gains a row
exactly when table logging is enabled; and any durable row carries the
tuple images exactly when tuple logging is configured. -/
theorem conflict_log_dual_sink (env : ResolveEnv) (cfg : ConflictLogConfig)
    (handlers : List BDRConflictHandler) (ty : BdrConflictType)
    (elapsed : Nat) (origin : NodeIdentity) (txid : Nat)
    (localC remoteC : ConflictChange) (st : ConflictLogState) :
    (resolveAndLog env cfg handlers ty elapsed origin txid localC remoteC
        st).2.serverlog.length = st.serverlog.length + 1 ∧
    (resolveAndLog env cfg handlers ty elapsed origin txid localC remoteC
        st).2.history_table.length = st.history_table.length +
      (if cfg.log_conflicts_to_table then 1 else 0) ∧
    (∀ row ∈ (resolveAndLog env cfg handlers ty elapsed origin txid localC
        remoteC st).2.history_table,
      row ∈ st.history_table ∨
        (row.logged_local_tuple =
            (if cfg.conflict_logging_include_tuples then
              row.record.local_tuple else none) ∧
         row.logged_remote_tuple =
            (if cfg.conflict_logging_include_tuples then
              row.record.remote_tuple else none))) := by
  refine ⟨by simp [resolveAndLog, bdr_conflict_log], ?_, ?_⟩
  · rcases Bool.eq_false_or_eq_true cfg.log_conflicts_to_table with h | h <;>
      simp [resolveAndLog, bdr_conflict_log, h]
  · intro row hrow
    rcases Bool.eq_false_or_eq_true cfg.log_conflicts_to_table with h | h
    · simp only [resolveAndLog, bdr_conflict_log, h, if_true] at hrow
      rcases List.mem_append.mp hrow with h1 | h1
      · exact Or.inl h1
      · right
        rw [List.mem_singleton] at h1
        subst h1
        simp [historyRow]
    · simp only [resolveAndLog, bdr_conflict_log, h] at hrow
      exact Or.inl (by simpa using hrow)

/-- C6 (witness): with table logging enabled, one invocation on an empty log
state leaves exactly one server-log line, by the dual-sink theorem. -/
theorem conflict_log_dual_sink_witness :
    (resolveAndLog envApply cfgFullDemo [] .insertInsert 0 ⟨1, 1, 1⟩ 9 cA cB
      { serverlog := [], history_table := [] }).2.serverlog.length = 1 :=
  (conflict_log_dual_sink envApply cfgFullDemo [] .insertInsert 0 ⟨1, 1, 1⟩ 9
    cA cB { serverlog := [], history_table := [] }).1

/-- C9: when an apply worker is asked to stop at a replay position, every
change at or before that position that the loop picked up is processed to
completion — the resulting trace holds only complete ConflictRecords, and it
is exactly the whole prefix of changes not past the stop position; nothing
is half-written. -/
theorem replay_stop_completes_inflight (stop : Nat)
    (changes : List ReplChange) (log : List ApplyLogEntry)
    (hlog : ∀ e ∈ log, e.complete = true) :
    (∀ e ∈ bdr_apply_replay stop changes log, e.complete = true) ∧
    bdr_apply_replay stop changes log =
      log ++ (changes.takeWhile (fun ch => !pastStop stop ch)).map
        (fun ch => { change := ch.payload, complete := true }) := by
  refine ⟨?_, bdr_apply_replay_append stop changes log⟩
  intro e he
  rw [bdr_apply_replay_append stop changes log] at he
  rcases List.mem_append.mp he with h | h
  · exact hlog e h
  · rcases List.mem_map.mp h with ⟨ch, -, rfl⟩
    rfl

/-- C9 (witness): replaying three changes with stop position 3 fully
processes exactly the two changes at or before the stop, leaving complete
records, by the replay-stop theorem. -/
theorem replay_stop_completes_inflight_witness :
    bdr_apply_replay 3 changesDemo [] =
      [{ change := 11, complete := true }, { change := 12, complete := true }] :=
  ((replay_stop_completes_inflight 3 changesDemo [] (by simp)).2).trans
    (by decide)

/-- C10: `BDR_WORKER_EMPTY_SLOT` has numeric value zero, so the all-zero tag
of a memset-initialised segment decodes to the empty slot: every slot of a
fresh segment is marked free and allocatable (and satisfies the tagged-union
invariant vacuously); and allocation preserves the invariant that the
`worker_type` tag determines which member of the `worker_data` union is
valid (apply data iff `BDR_WORKER_APPLY`, per-db data iff
`BDR_WORKER_PERDB`). -/
theorem worker_slot_tagged_union (n : Nat) (p : WorkerPayload)
    (slots slots' : List BdrWorker) (i : Nat)
    (hinv : ∀ w ∈ slots, workerTagOk w)
    (halloc : bdr_worker_shmem_alloc p slots = some (i, slots')) :
    workerTypeCode .emptySlot = 0 ∧
    workerTypeOfCode 0 = some .emptySlot ∧
    (∀ w ∈ bdr_worker_shmem_segment n,
      w.worker_type = .emptySlot ∧ slotIsFree w = true ∧ workerTagOk w) ∧
    (∀ w ∈ slots', workerTagOk w) := by
  refine ⟨rfl, rfl, ?_, ?_⟩
  · intro w hw
    have h1 : n ≠ 0 ∧ w = zeroedWorker := by
      simpa [bdr_worker_shmem_segment, List.mem_replicate] using hw
    rcases h1 with ⟨-, rfl⟩
    exact ⟨rfl, rfl, workerTagOk_zeroed⟩
  · intro w hw
    simp only [bdr_worker_shmem_alloc] at halloc
    rcases hfi : slots.findIdx? slotIsFree with - | j
    · rw [hfi] at halloc; simp at halloc
    · rw [hfi] at halloc
      simp only [Option.some.injEq, Prod.mk.injEq] at halloc
      rcases halloc with ⟨-, h3⟩
      subst h3
      rcases List.mem_or_eq_of_mem_set hw with h1 | h1
      · exact hinv w h1
      · subst h1
        exact workerTagOk_payload p

/-- C10 (witness): allocating an apply worker into a fresh two-slot segment
yields slots that all satisfy the tagged-union invariant, by the slot
theorem. -/
theorem worker_slot_tagged_union_witness :
    workerTagOk { worker_type := BdrWorkerType.apply,
                  worker_data := BdrWorkerData.applyData applyWorkerDemo } :=
  (worker_slot_tagged_union 2 (.applyW applyWorkerDemo)
    (bdr_worker_shmem_segment 2) slotsDemo 0
    (by
      intro w hw
      have h1 : (2 : Nat) ≠ 0 ∧ w = zeroedWorker := by
        simpa [bdr_worker_shmem_segment, List.mem_replicate] using hw
      rcases h1 with ⟨-, rfl⟩
      exact workerTagOk_zeroed)
    (by rfl)).2.2.2
    { worker_type := BdrWorkerType.apply,
      worker_data := BdrWorkerData.applyData applyWorkerDemo }
    (List.mem_cons_self _ _)

/-- Chunk disjointness is symmetric. -/
theorem chunksDisjoint_symm {a b : SeqChunk} (h : chunksDisjoint a b = true) :
    chunksDisjoint b a = true := by
  simp [chunksDisjoint] at h ⊢
  rcases h with (h | h) | h
  · exact Or.inl (Or.inl (Ne.symm h))
  · exact Or.inr h
  · exact Or.inl (Or.inr h)

/-- A won election preserves the sequencer invariant. -/
theorem seqInv_elect {s : SeqState} {c : SeqChunk} (hinv : SeqInv s)
    (h : canClaim c s = true) : SeqInv (electChunk c s) := by
  obtain ⟨hwf, hdisj, hlog, hnd⟩ := hinv
  have hc : (c.rangeStart < c.rangeEnd ∧ c.nextVal = c.rangeStart) ∧
      ∀ c' ∈ s.chunks, chunksDisjoint c c' = true := by
    simpa [canClaim, List.all_eq_true] using h
  refine ⟨?_, ?_, ?_, hnd⟩
  · intro i cc hget
    simp only [electChunk] at hget
    cases i with
    | zero =>
        rw [List.getElem?_cons_zero] at hget
        obtain rfl : c = cc := by simpa using hget
        obtain ⟨⟨h1, h2⟩, -⟩ := hc
        exact ⟨by omega, by omega⟩
    | succ i =>
        rw [List.getElem?_cons_succ] at hget
        exact hwf i cc hget
  · intro i j ci cj hne hgi hgj
    simp only [electChunk] at hgi hgj
    cases i with
    | zero =>
        rw [List.getElem?_cons_zero] at hgi
        obtain rfl : c = ci := by simpa using hgi
        cases j with
        | zero => exact absurd rfl hne
        | succ j =>
            rw [List.getElem?_cons_succ] at hgj
            exact hc.2 cj (List.mem_iff_getElem?.mpr ⟨j, hgj⟩)
    | succ i =>
        rw [List.getElem?_cons_succ] at hgi
        cases j with
        | zero =>
            rw [List.getElem?_cons_zero] at hgj
            obtain rfl : c = cj := by simpa using hgj
            exact chunksDisjoint_symm
              (hc.2 ci (List.mem_iff_getElem?.mpr ⟨i, hgi⟩))
        | succ j =>
            rw [List.getElem?_cons_succ] at hgj
            exact hdisj i j ci cj (by omega) hgi hgj
  · intro q v hm
    obtain ⟨i, cc, hget, hseq, h1, h2⟩ := hlog q v hm
    exact ⟨i + 1, cc, by simpa [electChunk, List.getElem?_cons_succ] using hget,
      hseq, h1, h2⟩

/-- A served allocation preserves the sequencer invariant. -/
theorem seqInv_alloc {s : SeqState} {i : Nat} (hinv : SeqInv s)
    (h : canAllocAt s i = true) : SeqInv (bdr_sequence_alloc s i) := by
  obtain ⟨hwf, hdisj, hlog, hnd⟩ := hinv
  rcases hci : s.chunks[i]? with - | c
  · simp [canAllocAt, hci] at h
  · have hlt : c.nextVal < c.rangeEnd := by simpa [canAllocAt, hci] using h
    have hilen : i < s.chunks.length := by
      rcases List.getElem?_eq_some.mp hci with ⟨hl, -⟩; exact hl
    obtain ⟨hs1, hs2⟩ := hwf i c hci
    simp only [bdr_sequence_alloc, hci]
    refine ⟨?_, ?_, ?_, ?_⟩
    · intro j cc hget
      rcases eq_or_ne i j with rfl | hne
      · obtain rfl : { c with nextVal := c.nextVal + 1 } = cc := by
          rw [List.getElem?_set_self hilen] at hget; simpa using hget
        show c.rangeStart ≤ c.nextVal + 1 ∧ c.nextVal + 1 ≤ c.rangeEnd
        omega
      · rw [List.getElem?_set_ne hne] at hget
        exact hwf j cc hget
    · intro j k cj ck hne hgj hgk
      rcases eq_or_ne i j with rfl | hnej
      · obtain rfl : { c with nextVal := c.nextVal + 1 } = cj := by
          rw [List.getElem?_set_self hilen] at hgj; simpa using hgj
        rw [List.getElem?_set_ne hne] at hgk
        exact hdisj i k c ck hne hci hgk
      · rcases eq_or_ne i k with rfl | hnek
        · obtain rfl : { c with nextVal := c.nextVal + 1 } = ck := by
            rw [List.getElem?_set_self hilen] at hgk; simpa using hgk
          rw [List.getElem?_set_ne hnej] at hgj
          exact hdisj j i cj c hne hgj hci
        · rw [List.getElem?_set_ne hnej] at hgj
          rw [List.getElem?_set_ne hnek] at hgk
          exact hdisj j k cj ck hne hgj hgk
    · intro q v hm
      rcases List.mem_cons.mp hm with heq | hold
      · obtain ⟨rfl, rfl⟩ : q = c.seqId ∧ v = c.nextVal := by
          simpa [Prod.ext_iff] using heq
        refine ⟨i, { c with nextVal := c.nextVal + 1 },
          List.getElem?_set_self hilen, rfl, hs1, ?_⟩
        show c.nextVal < c.nextVal + 1
        omega
      · obtain ⟨i0, c0, hg0, hseq, hv1, hv2⟩ := hlog q v hold
        rcases eq_or_ne i i0 with rfl | hne0
        · have hc0 : c0 = c := by
            rw [hci] at hg0; exact (Option.some.inj hg0).symm
          subst hc0
          refine ⟨i, { c0 with nextVal := c0.nextVal + 1 },
            List.getElem?_set_self hilen, hseq, hv1, ?_⟩
          show v < c0.nextVal + 1
          omega
        · exact ⟨i0, c0, by rw [List.getElem?_set_ne hne0]; exact hg0,
            hseq, hv1, hv2⟩
    · refine List.nodup_cons.mpr ⟨?_, hnd⟩
      intro hm
      obtain ⟨i0, c0, hg0, hseq, hv1, hv2⟩ := hlog c.seqId c.nextVal hm
      rcases eq_or_ne i i0 with rfl | hne0
      · have hc0 : c0 = c := by
          rw [hci] at hg0; exact (Option.some.inj hg0).symm
        subst hc0
        omega
      · have hd := hdisj i0 i c0 c (Ne.symm hne0) hg0 hci
        obtain ⟨h01, h02⟩ := hwf i0 c0 hg0
        simp [chunksDisjoint] at hd
        rcases hd with (hd | hd) | hd
        · exact hd hseq
        · omega
        · omega

/-- Abandoning a crashed owner's chunk preserves the sequencer invariant. -/
theorem seqInv_abandon {s : SeqState} {i : Nat} (hinv : SeqInv s) :
    SeqInv (abandonChunk s i) := by
  obtain ⟨hwf, hdisj, hlog, hnd⟩ := hinv
  rcases hci : s.chunks[i]? with - | c
  · simp only [abandonChunk, hci]
    exact ⟨hwf, hdisj, hlog, hnd⟩
  · have hilen : i < s.chunks.length := by
      rcases List.getElem?_eq_some.mp hci with ⟨hl, -⟩; exact hl
    obtain ⟨hs1, hs2⟩ := hwf i c hci
    simp only [abandonChunk, hci]
    refine ⟨?_, ?_, ?_, hnd⟩
    · intro j cc hget
      rcases eq_or_ne i j with rfl | hne
      · obtain rfl : { c with nextVal := c.rangeEnd } = cc := by
          rw [List.getElem?_set_self hilen] at hget; simpa using hget
        show c.rangeStart ≤ c.rangeEnd ∧ c.rangeEnd ≤ c.rangeEnd
        omega
      · rw [List.getElem?_set_ne hne] at hget
        exact hwf j cc hget
    · intro j k cj ck hne hgj hgk
      rcases eq_or_ne i j with rfl | hnej
      · obtain rfl : { c with nextVal := c.rangeEnd } = cj := by
          rw [List.getElem?_set_self hilen] at hgj; simpa using hgj
        rw [List.getElem?_set_ne hne] at hgk
        exact hdisj i k c ck hne hci hgk
      · rcases eq_or_ne i k with rfl | hnek
        · obtain rfl : { c with nextVal := c.rangeEnd } = ck := by
            rw [List.getElem?_set_self hilen] at hgk; simpa using hgk
          rw [List.getElem?_set_ne hnej] at hgj
          exact hdisj j i cj c hne hgj hci
        · rw [List.getElem?_set_ne hnej] at hgj
          rw [List.getElem?_set_ne hnek] at hgk
          exact hdisj j k cj ck hne hgj hgk
    · intro q v hm
      obtain ⟨i0, c0, hg0, hseq, hv1, hv2⟩ := hlog q v hm
      rcases eq_or_ne i i0 with rfl | hne0
      · have hc0 : c0 = c := by
          rw [hci] at hg0; exact (Option.some.inj hg0).symm
        subst hc0
        refine ⟨i, { c0 with nextVal := c0.rangeEnd },
          List.getElem?_set_self hilen, hseq, hv1, ?_⟩
        show v < c0.rangeEnd
        omega
      · exact ⟨i0, c0, by rw [List.getElem?_set_ne hne0]; exact hg0,
          hseq, hv1, hv2⟩

/-- Every reachable sequencer state satisfies the invariant. -/
theorem seqInv_reachable {s : SeqState} (h : SeqReachable s) : SeqInv s := by
  induction h with
  | init =>
      refine ⟨fun i c hg => ?_, fun i j ci cj hne hgi hgj => ?_,
        fun q v hm => ?_, List.nodup_nil⟩
      · simp [seqInit] at hg
      · simp [seqInit] at hgi
      · simp [seqInit] at hm
  | step hr hs ih =>
      cases hs with
      | elect c hc => exact seqInv_elect ih hc
      | alloc i hc => exact seqInv_alloc ih hc
      | abandon i => exact seqInv_abandon ih

/-- C7: in every reachable sequencer state, no two allocation requests have
received the same (sequence id, value) pair, and for a given sequence two
distinct granted chunks never both contain a value — at most one node owns
any given value, across all epochs. -/
theorem sequence_allocation_unique (s : SeqState) (h : SeqReachable s) :
    s.alloc_log.Nodup ∧
    (∀ (i j : Nat) (ci cj : SeqChunk) (v : Nat), s.chunks[i]? = some ci →
      s.chunks[j]? = some cj → ci.seqId = cj.seqId →
      ci.rangeStart ≤ v → v < ci.rangeEnd →
      cj.rangeStart ≤ v → v < cj.rangeEnd → i = j) := by
  obtain ⟨hwf, hdisj, -, hnd⟩ := seqInv_reachable h
  refine ⟨hnd, ?_⟩
  intro i j ci cj v hgi hgj hseq h1 h2 h3 h4
  by_contra hne
  have hd := hdisj i j ci cj hne hgi hgj
  simp [chunksDisjoint] at hd
  rcases hd with (hd | hd) | hd
  · exact hd hseq
  · omega
  · omega

/-- C7 (witness): after a won election for chunk [0, 3) of sequence 1 and
two allocations, the allocation log holds no duplicate pair, by the
uniqueness theorem. -/
theorem sequence_allocation_unique_witness :
    seqDemo.alloc_log.Nodup :=
  (sequence_allocation_unique seqDemo
    (SeqReachable.step
      (SeqReachable.step
        (SeqReachable.step SeqReachable.init
          (SeqStep.elect seqInit chunkDemoA (by decide)))
        (SeqStep.alloc (electChunk chunkDemoA seqInit) 0 (by decide)))
      (SeqStep.alloc (bdr_sequence_alloc (electChunk chunkDemoA seqInit) 0) 0
        (by decide)))).1

/-- A new acquire request preserves the lock invariant: it joins the tail of
the queue with a counter above every counter issued so far. -/
theorem lockInv_request {s : DDLLockState} (n : Nat) (hinv : LockInv s) :
    LockInv (requestLock n s) := by
  obtain ⟨hh, hp, hb⟩ := hinv
  have he : (requestLock n s).grants ++ (requestLock n s).queue =
      (s.grants ++ s.queue) ++ [{ node := n, counter := s.next_counter }] := by
    simp [requestLock]
  refine ⟨hh, ?_, ?_⟩
  · rw [he, List.map_append]
    refine List.pairwise_append.mpr ⟨hp, List.pairwise_singleton _ _, ?_⟩
    intro a ha b hbm
    have hb' : b = s.next_counter := by simpa using hbm
    subst hb'
    exact hb a ha
  · intro cc hc
    rw [he, List.map_append] at hc
    have hn : (requestLock n s).next_counter = s.next_counter + 1 := rfl
    rw [hn]
    rcases List.mem_append.mp hc with h1 | h1
    · have := hb cc h1
      omega
    · have : cc = s.next_counter := by simpa using h1
      omega

/-- Granting the lock to the queue head preserves the lock invariant: it
requires the lock to be free, and moves the head of the queue to the end of
the grant history, leaving the concatenated counter sequence unchanged. -/
theorem lockInv_grant {s : DDLLockState} (h : canGrant s = true)
    (hinv : LockInv s) : LockInv (grantLock s) := by
  obtain ⟨-, hp, hb⟩ := hinv
  rcases hq : s.queue with - | ⟨r, rest⟩
  · simp [canGrant, hq] at h
  · rw [hq] at hp hb
    simp only [grantLock, hq]
    have he : (s.grants ++ [r]) ++ rest = s.grants ++ (r :: rest) := by
      simp
    refine ⟨by simp, ?_, ?_⟩
    · rw [he]
      exact hp
    · intro cc hc
      rw [he] at hc
      exact hb cc hc

/-- Releasing the lock preserves the lock invariant. -/
theorem lockInv_release {s : DDLLockState} (hinv : LockInv s) :
    LockInv (releaseLock s) := by
  obtain ⟨-, hp, hb⟩ := hinv
  exact ⟨by simp [releaseLock], hp, hb⟩

/-- Every reachable lock state satisfies the invariant. -/
theorem lockInv_reachable {seed : Nat} {s : DDLLockState}
    (h : LockReachable seed s) : LockInv s := by
  induction h with
  | init =>
      refine ⟨by simp [lockInit], by simp [lockInit], ?_⟩
      intro c hc
      simp [lockInit] at hc
  | step hr hs ih =>
      cases hs with
      | request n => exact lockInv_request n ih
      | grant hg => exact lockInv_grant hg ih
      | release => exact lockInv_release ih

/-- C8: in every reachable state of the global DDL lock protocol, at most
one node holds the lock, and the history of grants is strictly increasing in
the join-time-seeded request counters — concurrent acquire requests are
granted in FIFO counter order. -/
theorem ddl_lock_mutex_fifo (seed : Nat) (s : DDLLockState)
    (h : LockReachable seed s) :
    s.holders.length ≤ 1 ∧
    List.Pairwise (· < ·) (s.grants.map LockRequest.counter) := by
  obtain ⟨hh, hp, -⟩ := lockInv_reachable h
  rw [List.map_append] at hp
  exact ⟨hh, (List.pairwise_append.mp hp).1⟩

/-- C8 (witness): after two requests, a grant, a release and a second grant,
at most one node holds the lock and the grant history is in counter order,
by the mutual-exclusion/FIFO theorem. -/
theorem ddl_lock_mutex_fifo_witness :
    lockDemo.holders.length ≤ 1 ∧
    List.Pairwise (· < ·) (lockDemo.grants.map LockRequest.counter) :=
  ddl_lock_mutex_fifo 3 lockDemo
    (LockReachable.step
      (LockReachable.step
        (LockReachable.step
          (LockReachable.step
            (LockReachable.step LockReachable.init (LockStep.request _ 5))
            (LockStep.request _ 7))
          (LockStep.grant _ (by decide)))
        (LockStep.release _))
      (LockStep.grant _ (by decide)))

end BDR
